import Mathlib

/-!
# Verification of the pastens domain-search controller

Shallow embedding of the client-side search controller in
`src/app/page.tsx` and the dynamic route wrapper in
`src/app/[domain]/page.tsx`, together with proofs and refutations of the
specification's claims about it.

The embedding models JavaScript strings as Lean `String`s (lists of
characters), with ASCII `toLowerCase`/`trim` semantics, which cover every
character the application manipulates.
-/

set_option autoImplicit false

namespace Pastens

/-! ## Character and string primitives (models of the JS string methods) -/

/-- Model of `String.prototype.toLowerCase` on a single character
(ASCII range, the only range exercised by the application). -/
def charLower (c : Char) : Char :=
  if 65 ≤ c.toNat ∧ c.toNat ≤ 90 then Char.ofNat (c.toNat + 32) else c

/-- Whitespace test used by `String.prototype.trim` (ASCII whitespace). -/
def isWs (c : Char) : Bool :=
  decide (c.toNat = 32 ∨ c.toNat = 9 ∨ c.toNat = 10 ∨ c.toNat = 13)

/-- `toLowerCase` on a character list. -/
def lowerL (l : List Char) : List Char := l.map charLower

/-- `trim` on a character list: drop whitespace from the front, then from
the back. -/
def trimL (l : List Char) : List Char :=
  ((l.dropWhile isWs).reverse.dropWhile isWs).reverse

/-- Model of `String.prototype.toLowerCase`. -/
def lowerStr (s : String) : String := ⟨lowerL s.data⟩

/-- Model of `String.prototype.trim`. -/
def trimStr (s : String) : String := ⟨trimL s.data⟩

/-- `a.isPrefixOfL b` decides whether `a` is a prefix of `b`. -/
def isPrefixL : List Char → List Char → Bool
  | [], _ => true
  | _ :: _, [] => false
  | a :: as, b :: bs => a == b && isPrefixL as bs

/-- Model of `String.prototype.endsWith` on character lists. -/
def endsWithL (l suf : List Char) : Bool := isPrefixL suf.reverse l.reverse

/-- Model of `String.prototype.endsWith`. -/
def endsWithStr (s suf : String) : Bool := endsWithL s.data suf.data

/-- The fixed domain suffix `".eth"` as a character list. -/
def ethL : List Char := ['.', 'e', 't', 'h']

/-! ## Normalization (src/app/page.tsx lines 110-114)

```ts
let searchName = name.trim().toLowerCase();
if (!searchName.endsWith('.eth')) {
  searchName = searchName + '.eth';
}
```
-/

/-- Normalization on character lists. -/
def normalizeL (l : List Char) : List Char :=
  let s := lowerL (trimL l)
  if endsWithL s ethL then s else s ++ ethL

/-- The controller's input normalization: trim, lowercase, append `".eth"`
when not already present (`performSearch`, lines 110-114). -/
def normalize (s : String) : String := ⟨normalizeL s.data⟩

/-! ## Search history (src/app/page.tsx lines 86-97)

```ts
const normalizedName = name.trim().toLowerCase();
if (!normalizedName) return;
const filtered = prev.filter((item) => item.toLowerCase() !== normalizedName);
const updated = [normalizedName, ...filtered].slice(0, MAX_SEARCH_HISTORY);
```
-/

def MAX_SEARCH_HISTORY : Nat := 10

/-- `saveToHistory` as a pure function of the previous history list. -/
def saveToHistory (name : String) (prev : List String) : List String :=
  let normalizedName := lowerStr (trimStr name)
  if normalizedName = "" then prev
  else
    (normalizedName ::
      prev.filter (fun item => lowerStr item ≠ normalizedName)).take MAX_SEARCH_HISTORY

/-- The history produced by a sequence of `saveToHistory` calls starting
from the empty list. -/
def historyOfCalls (names : List String) : List String :=
  names.foldl (fun h n => saveToHistory n h) []

/-- `removeFromHistory` as a pure function (lines 181-192). -/
def removeFromHistory (name : String) (prev : List String) : List String :=
  prev.filter (fun item => lowerStr item ≠ lowerStr name)

/-! ## JSON values

JavaScript values produced by `response.json()` / `JSON.parse`. -/

inductive JsValue where
  | jnull : JsValue
  | jbool : Bool → JsValue
  | jnum : Int → JsValue
  | jstr : String → JsValue
  | jarr : List JsValue → JsValue
  | jobj : List (String × JsValue) → JsValue

/-- Access to `errorData.error`, per the API failure contract (spec §6: the
failure body carries an `error` string field); yields `none` when the field
is absent or not a string. -/
def errorField : JsValue → Option String
  | JsValue.jobj fields =>
    match fields.lookup "error" with
    | some (JsValue.jstr s) => some s
    | _ => none
  | _ => none

/-- JavaScript `a || b` for an optional string `a` against a fallback:
the fallback is used when the field is absent or the empty string (falsy). -/
def jsOrDefault (v : Option String) (fallback : String) : String :=
  match v with
  | some s => if s = "" then fallback else s
  | none => fallback

/-- The rate-limit message literal of src/app/page.tsx line 135. -/
def RATE_LIMIT_MESSAGE : String :=
  "Rate limit exceeded. The Graph API is temporarily rate-limiting requests. Please wait a few moments and try again."

/-- The generic fallback message literal of lines 139 and 151. -/
def DEFAULT_ERROR_MESSAGE : String :=
  "Failed to fetch ENS history. Please try again."

/-! ## Fetch lifecycle (src/app/page.tsx lines 109-155) -/

/-- Outcome of the `fetch` call awaited by `performSearch`. `body` is the
outcome of `response.json()`: `Except.error m` models a rejected parse whose
thrown exception carries message `m` (the code reads it as `error.message`
in the catch block). -/
inductive FetchOutcome where
  | response : Bool → Nat → Except String JsValue → FetchOutcome
  | networkFailure : String → FetchOutcome

/-- Is the outcome an `ok` response with a parseable body (the only case in
which the code reaches `setSearchResults`/`saveToHistory`)? -/
def isSuccessOutcome : FetchOutcome → Bool
  | FetchOutcome.response true _ (Except.ok _) => true
  | _ => false

/-- The component state owned by `Home` (lines 21-37) that the search
lifecycle touches, plus the current URL path. -/
structure UIState where
  ensName : String
  isSearching : Bool
  error : Option String
  searchResults : Option JsValue
  searchHistory : List String
  showHistory : Bool
  url : String

/-- The state of a freshly mounted `Home` at the root path. -/
def initialUIState : UIState :=
  { ensName := "", isSearching := false, error := none, searchResults := none,
    searchHistory := [], showHistory := false, url := "/" }

/-- `updateURL` (lines 100-107): the path pushed for a given name. -/
def updateURLPath (name : String) : String :=
  let normalizedName := lowerStr (trimStr name)
  if normalizedName ≠ "" then "/" ++ normalizedName else "/"

/-- The synchronous head of `performSearch` (lines 110-122), executed before
the `await fetch`: normalize, enter the loading state (clearing results and
error), close the history dropdown, push the URL. -/
def beginSearch (name : String) (st : UIState) : UIState :=
  let searchName := normalize name
  { st with isSearching := true, searchResults := none, error := none,
            showHistory := false, url := updateURLPath searchName }

/-- The continuation of `performSearch` after the awaited response
(lines 124-154), for the invocation whose closure captured `searchName`.
The code applies this unconditionally on arrival: there is no invocation
token or staleness check. -/
def completeSearch (searchName : String) (outcome : FetchOutcome)
    (st : UIState) : UIState :=
  match outcome with
  | FetchOutcome.response ok status body =>
    if ok then
      match body with
      | Except.error m =>
        -- `response.json()` threw; the catch block runs (lines 149-151)
        { st with error := some (if m = "" then DEFAULT_ERROR_MESSAGE else m),
                  isSearching := false }
      | Except.ok data =>
        { st with searchResults := some data,
                  searchHistory := saveToHistory searchName st.searchHistory,
                  isSearching := false }
    else
      match body with
      | Except.error m =>
        -- `response.json()` on the error body threw; caught at line 149
        { st with error := some (if m = "" then DEFAULT_ERROR_MESSAGE else m),
                  isSearching := false }
      | Except.ok errorData =>
        if status = 429 then
          { st with error := some (jsOrDefault (errorField errorData) RATE_LIMIT_MESSAGE),
                    isSearching := false }
        else
          { st with error := some (jsOrDefault (errorField errorData) DEFAULT_ERROR_MESSAGE),
                    isSearching := false }
  | FetchOutcome.networkFailure m =>
      { st with error := some (if m = "" then DEFAULT_ERROR_MESSAGE else m),
                isSearching := false }

/-! ## Interleaving of overlapping searches

Each `performSearch` invocation runs its synchronous head, suspends at the
`await`, and later applies its continuation when its response arrives. The
code keeps no invocation token, so a completion is applied whenever it
arrives, latest invocation or not. -/

/-- A system state: the UI state plus the set of in-flight invocations
(each remembering the `searchName` its closure captured). -/
structure SearchSystem where
  ui : UIState
  pending : List (Nat × String)
  nextId : Nat

def initialSystem : SearchSystem :=
  { ui := initialUIState, pending := [], nextId := 0 }

/-- Scheduler events: a new `performSearch` invocation starts, or the
response of in-flight invocation `id` arrives with the given outcome. -/
inductive SearchEvent where
  | start : String → SearchEvent
  | complete : Nat → FetchOutcome → SearchEvent

def stepSystem (sys : SearchSystem) (e : SearchEvent) : SearchSystem :=
  match e with
  | SearchEvent.start name =>
    { ui := beginSearch name sys.ui,
      pending := sys.pending ++ [(sys.nextId, normalize name)],
      nextId := sys.nextId + 1 }
  | SearchEvent.complete id outcome =>
    match sys.pending.lookup id with
    | some searchName =>
      { sys with ui := completeSearch searchName outcome sys.ui,
                 pending := sys.pending.filter (fun p => p.1 ≠ id) }
    | none => sys

/-- Run a sequence of scheduler events from the initial state. -/
def runSystem (events : List SearchEvent) : SearchSystem :=
  events.foldl stepSystem initialSystem

/-! ## Side-effect trace of one full `performSearch` invocation -/

inductive SideEffect where
  | setSearching : Bool → SideEffect
  | clearResults : SideEffect
  | clearError : SideEffect
  | closeHistory : SideEffect
  | pushURL : String → SideEffect
  | issueRequest : String → SideEffect
  | setResults : JsValue → SideEffect
  | setError : String → SideEffect
  | saveHistory : String → SideEffect

/-- The sequence of side effects performed by one `performSearch name`
invocation whose fetch resolves with `outcome`, in program order
(lines 109-155). -/
def performSearchTrace (name : String) (outcome : FetchOutcome) : List SideEffect :=
  let searchName := normalize name
  [SideEffect.setSearching true, SideEffect.clearResults, SideEffect.clearError,
   SideEffect.closeHistory, SideEffect.pushURL (updateURLPath searchName),
   SideEffect.issueRequest searchName] ++
  (match outcome with
   | FetchOutcome.response ok status body =>
     if ok then
       match body with
       | Except.error m =>
         [SideEffect.setError (if m = "" then DEFAULT_ERROR_MESSAGE else m)]
       | Except.ok data =>
         [SideEffect.setResults data, SideEffect.saveHistory searchName]
     else
       match body with
       | Except.error m =>
         [SideEffect.setError (if m = "" then DEFAULT_ERROR_MESSAGE else m)]
       | Except.ok errorData =>
         if status = 429 then
           [SideEffect.setError (jsOrDefault (errorField errorData) RATE_LIMIT_MESSAGE)]
         else
           [SideEffect.setError (jsOrDefault (errorField errorData) DEFAULT_ERROR_MESSAGE)]
   | FetchOutcome.networkFailure m =>
     [SideEffect.setError (if m = "" then DEFAULT_ERROR_MESSAGE else m)]) ++
  [SideEffect.setSearching false]

def isPushURL : SideEffect → Bool
  | SideEffect.pushURL _ => true
  | _ => false

def isIssueRequest : SideEffect → Bool
  | SideEffect.issueRequest _ => true
  | _ => false

def isSaveHistory : SideEffect → Bool
  | SideEffect.saveHistory _ => true
  | _ => false

/-! ## History restoration at startup (src/app/page.tsx lines 40-49)

```ts
const stored = localStorage.getItem(SEARCH_HISTORY_KEY);
if (stored) {
  try { setSearchHistory(JSON.parse(stored)); }
  catch (e) { console.error("Failed to parse search history:", e); }
}
```
-/

/-- The in-memory history value after the restore effect, as a function of
the stored string (`none` models a null `getItem`) and of the platform JSON
parser (`Except.error` models a thrown parse exception). The `useState`
initial value is the empty array; a parse failure is caught — the effect
returns normally and the state is left at the initial empty array, so no
error ever propagates past the effect. A successful parse is installed
verbatim, with no validation of its shape. -/
def restoredHistoryState (stored : Option String)
    (jsonParse : String → Except String JsValue) : JsValue :=
  match stored with
  | none => JsValue.jarr []
  | some s =>
    match jsonParse s with
    | Except.error _ => JsValue.jarr []
    | Except.ok v => v

/-- A parseable stored value violating every shape expectation: 11 elements,
case-insensitive duplicates, and a non-string entry. -/
def badHistoryValue : JsValue :=
  JsValue.jarr [JsValue.jstr "A.eth", JsValue.jstr "a.eth", JsValue.jstr "b.eth",
    JsValue.jstr "c.eth", JsValue.jstr "d.eth", JsValue.jstr "e.eth",
    JsValue.jstr "f.eth", JsValue.jstr "g.eth", JsValue.jstr "h.eth",
    JsValue.jstr "i.eth", JsValue.jnum 7]

/-! ## Route initialization and navigation (src/app/page.tsx lines 52-68,
src/app/[domain]/page.tsx)

The effect depends on `[pathname, initialDomain]` and runs on every mount of
the page component. `router.push` to a different path swaps the page
component (Next.js app router: `/` renders `app/page.tsx`, `/<seg>` renders
`app/[domain]/page.tsx`, which mounts `Home` with the percent-decoded
segment as `initialDomain`), re-running the effect; a push to the identical
path leaves the component and `pathname` unchanged, so the effect does not
re-run. -/

/-- Hex digit value, for percent-decoding. -/
def hexVal (c : Char) : Option Nat :=
  if 48 ≤ c.toNat ∧ c.toNat ≤ 57 then some (c.toNat - 48)
  else if 65 ≤ c.toNat ∧ c.toNat ≤ 70 then some (c.toNat - 55)
  else if 97 ≤ c.toNat ∧ c.toNat ≤ 102 then some (c.toNat - 87)
  else none

/-- Model of `decodeURIComponent` (single-byte escapes; malformed escapes
are kept literally — no input in this development contains them). -/
def decodePercentL : List Char → List Char
  | [] => []
  | '%' :: h1 :: h2 :: rest =>
    match hexVal h1, hexVal h2 with
    | some a, some b => Char.ofNat (16 * a + b) :: decodePercentL rest
    | _, _ => '%' :: decodePercentL (h1 :: h2 :: rest)
  | c :: rest => c :: decodePercentL rest

def decodePercent (s : String) : String := ⟨decodePercentL s.data⟩

/-- Model of JavaScript `pathname.slice(1)`. -/
def sliceFrom1 (s : String) : String := ⟨s.data.drop 1⟩

/-- The term the route-initialization effect searches for, given the props
of the mounted `Home` (lines 52-68): `initialDomain` when supplied,
otherwise the non-empty path segment of a non-root pathname. -/
def routeSearchTerm (pathname : String) (initialDomain : Option String) :
    Option String :=
  match initialDomain with
  | some d => some d
  | none =>
    if pathname ≠ "" ∧ pathname ≠ "/" ∧ sliceFrom1 pathname ≠ "" then
      some (sliceFrom1 pathname)
    else none

/-- The term searched by the effect of the page component mounted at `path`:
the root route mounts `Home` bare; `/<seg>` mounts `DomainPage`, which
passes `decodeURIComponent(seg)` as `initialDomain`
(src/app/[domain]/page.tsx lines 6-11). -/
def componentInit (path : String) : Option String :=
  if path = "/" then routeSearchTerm "/" none
  else routeSearchTerm path (some (decodePercent (sliceFrom1 path)))

/-- A navigation session: the current route and the log of `performSearch`
invocations (their raw arguments, in order). -/
structure Session where
  route : String
  searchLog : List String
deriving DecidableEq

/-- Mount the page component for the session's current route and run its
route-initialization effect: if the effect finds a term it invokes
`performSearch`, whose `updateURL` pushes the normalized path; a push to a
new path mounts the next component (recursion on `fuel`; every trace in
this development reaches a fixed point within the supplied fuel). -/
def mountComponent : Nat → Session → Session
  | 0, s => s
  | fuel + 1, s =>
    match componentInit s.route with
    | none => s
    | some d =>
      let s' : Session := { s with searchLog := s.searchLog ++ [d] }
      let target := updateURLPath (normalize d)
      if target = s'.route then s'
      else mountComponent fuel { route := target, searchLog := s'.searchLog }

/-- Initial page load at `path`. -/
def loadPage (fuel : Nat) (path : String) : Session :=
  mountComponent fuel { route := path, searchLog := [] }

/-- The user submits the search form with `input` (`handleSearch`,
lines 157-161: a blank input is ignored; otherwise `performSearch` runs and
its `updateURL` push may navigate). -/
def submitSearch (fuel : Nat) (s : Session) (input : String) : Session :=
  if trimStr input = "" then s
  else
    let s' : Session := { s with searchLog := s.searchLog ++ [input] }
    let target := updateURLPath (normalize input)
    if target = s'.route then s'
    else mountComponent fuel { route := target, searchLog := s'.searchLog }

/-! # Auxiliary lemmas on the string primitives -/

theorem toNat_charOfNat (n : Nat) (h : n < 55296) : (Char.ofNat n).toNat = n := by
  have hv : Nat.isValidChar n := Or.inl h
  simp only [Char.ofNat, hv, dif_pos, Char.ofNatAux, Char.toNat]
  simp [UInt32.toNat, BitVec.toNat_ofNatLt]

theorem charLower_def (c : Char) :
    charLower c =
      if 65 ≤ c.toNat ∧ c.toNat ≤ 90 then Char.ofNat (c.toNat + 32) else c := rfl

theorem charLower_not_upper (c : Char) :
    ¬(65 ≤ (charLower c).toNat ∧ (charLower c).toNat ≤ 90) := by
  rw [charLower_def]
  by_cases h : 65 ≤ c.toNat ∧ c.toNat ≤ 90
  · rw [if_pos h, toNat_charOfNat _ (by omega)]
    omega
  · rw [if_neg h]
    exact h

theorem charLower_idem (c : Char) : charLower (charLower c) = charLower c := by
  rw [charLower_def (charLower c), if_neg (charLower_not_upper c)]

theorem isWs_charLower (c : Char) : isWs (charLower c) = isWs c := by
  rw [charLower_def]
  by_cases h : 65 ≤ c.toNat ∧ c.toNat ≤ 90
  · rw [if_pos h]
    unfold isWs
    rw [toNat_charOfNat _ (by omega), decide_eq_decide]
    omega
  · rw [if_neg h]

theorem lowerL_idem (l : List Char) : lowerL (lowerL l) = lowerL l := by
  unfold lowerL
  rw [List.map_map]
  exact List.map_congr_left (fun c _ => charLower_idem c)

theorem lowerL_append (a b : List Char) :
    lowerL (a ++ b) = lowerL a ++ lowerL b := List.map_append ..

theorem lowerL_ethL : lowerL ethL = ethL := by decide

theorem dropWhile_head_false {p : Char → Bool} :
    ∀ (l : List Char) (c : Char), (l.dropWhile p).head? = some c → p c = false := by
  intro l
  induction l with
  | nil => intro c h; cases h
  | cons a t ih =>
    intro c h
    cases hpa : p a with
    | true =>
      rw [List.dropWhile_cons, if_pos hpa] at h
      exact ih c h
    | false =>
      rw [List.dropWhile_cons, if_neg (by simp [hpa])] at h
      rw [List.head?_cons] at h
      injection h with h'
      rw [← h']
      exact hpa

theorem dropWhile_eq_self_of {p : Char → Bool} (l : List Char)
    (h : ∀ c, l.head? = some c → p c = false) : l.dropWhile p = l := by
  cases l with
  | nil => rfl
  | cons a t =>
    have ha : p a = false := h a (by rw [List.head?_cons])
    rw [List.dropWhile_cons, if_neg (by simp [ha])]

theorem trimL_def (l : List Char) :
    trimL l = ((l.dropWhile isWs).reverse.dropWhile isWs).reverse := rfl

theorem length_trimL_le (l : List Char) :
    (trimL l).length ≤ (l.dropWhile isWs).length := by
  rw [trimL_def, List.length_reverse]
  calc ((l.dropWhile isWs).reverse.dropWhile isWs).length
      ≤ (l.dropWhile isWs).reverse.length := (List.dropWhile_suffix isWs).length_le
    _ = (l.dropWhile isWs).length := List.length_reverse _

theorem trimL_head_not_ws (l : List Char) (c : Char)
    (h : (trimL l).head? = some c) : isWs c = false := by
  have hsuf : (l.dropWhile isWs).reverse.dropWhile isWs <:+ (l.dropWhile isWs).reverse :=
    List.dropWhile_suffix isWs
  have hpre : trimL l <+: l.dropWhile isWs := by
    rw [trimL_def]
    have h2 := List.reverse_prefix.mpr hsuf
    rwa [List.reverse_reverse] at h2
  obtain ⟨t, ht⟩ := hpre
  cases htr : trimL l with
  | nil => rw [htr] at h; cases h
  | cons a r =>
    rw [htr] at h
    rw [List.head?_cons] at h
    injection h with h'
    rw [htr] at ht
    have hh : (l.dropWhile isWs).head? = some a := by
      rw [← ht, List.cons_append, List.head?_cons]
    rw [← h']
    exact dropWhile_head_false l a hh

theorem trimL_revhead_not_ws (l : List Char) (c : Char)
    (h : (trimL l).reverse.head? = some c) : isWs c = false := by
  rw [trimL_def, List.reverse_reverse] at h
  exact dropWhile_head_false _ c h

theorem trimL_eq_self_of (l : List Char)
    (h1 : ∀ c, l.head? = some c → isWs c = false)
    (h2 : ∀ c, l.reverse.head? = some c → isWs c = false) : trimL l = l := by
  rw [trimL_def, dropWhile_eq_self_of l h1, dropWhile_eq_self_of l.reverse h2,
    List.reverse_reverse]

theorem trimL_idem (l : List Char) : trimL (trimL l) = trimL l :=
  trimL_eq_self_of _ (trimL_head_not_ws l) (trimL_revhead_not_ws l)

theorem dropWhile_isWs_lowerL (l : List Char) :
    (lowerL l).dropWhile isWs = lowerL (l.dropWhile isWs) := by
  unfold lowerL
  rw [List.dropWhile_map]
  have hf : (isWs ∘ charLower) = isWs := by
    funext c
    simp [Function.comp, isWs_charLower]
  rw [hf]

theorem reverse_lowerL (l : List Char) :
    (lowerL l).reverse = lowerL l.reverse := by
  unfold lowerL
  rw [List.map_reverse]

theorem trimL_lowerL (l : List Char) : trimL (lowerL l) = lowerL (trimL l) := by
  rw [trimL_def, trimL_def, dropWhile_isWs_lowerL, reverse_lowerL,
    dropWhile_isWs_lowerL, reverse_lowerL]

theorem isPrefixL_append_self (p t : List Char) : isPrefixL p (p ++ t) = true := by
  induction p with
  | nil => rfl
  | cons a as ih => simp [isPrefixL, ih]

theorem endsWithL_append_eth (s : List Char) : endsWithL (s ++ ethL) ethL = true := by
  unfold endsWithL
  rw [List.reverse_append]
  exact isPrefixL_append_self _ _

theorem isPrefixL_length (p : List Char) :
    ∀ l, isPrefixL p l = true → p.length ≤ l.length := by
  induction p with
  | nil => intro l _; simp
  | cons a as ih =>
    intro l h
    cases l with
    | nil => cases h
    | cons b bs =>
      rw [isPrefixL, Bool.and_eq_true] at h
      have := ih bs h.2
      simp only [List.length_cons]
      omega

theorem head_not_ws_of_trimL_fix (s : List Char) (hts : trimL s = s) :
    ∀ c, s.head? = some c → isWs c = false := by
  intro c hc
  cases s with
  | nil => cases hc
  | cons a t =>
    rw [List.head?_cons] at hc
    injection hc with hc'
    rw [← hc']
    cases hwa : isWs a with
    | false => rfl
    | true =>
      exfalso
      have h1 : (trimL (a :: t)).length ≤ ((a :: t).dropWhile isWs).length :=
        length_trimL_le _
      rw [List.dropWhile_cons, if_pos hwa, hts] at h1
      have h2 : (t.dropWhile isWs).length ≤ t.length :=
        (List.dropWhile_suffix isWs).length_le
      simp only [List.length_cons] at h1
      omega

theorem trimL_append_eth (s : List Char) (hts : trimL s = s) :
    trimL (s ++ ethL) = s ++ ethL := by
  apply trimL_eq_self_of
  · intro c hc
    cases s with
    | nil =>
      rw [List.nil_append] at hc
      rw [show ethL.head? = some '.' from rfl] at hc
      injection hc with hc'
      rw [← hc']
      decide
    | cons a t =>
      rw [List.cons_append, List.head?_cons] at hc
      injection hc with hc'
      rw [← hc']
      exact head_not_ws_of_trimL_fix (a :: t) hts a (by rw [List.head?_cons])
  · intro c hc
    rw [List.reverse_append, show ethL.reverse = ['h', 't', 'e', '.'] from rfl,
      List.cons_append, List.head?_cons] at hc
    injection hc with hc'
    rw [← hc']
    decide

/-! # Lemmas about `normalizeL` -/

theorem normalizeL_def (l : List Char) :
    normalizeL l =
      if endsWithL (lowerL (trimL l)) ethL = true then lowerL (trimL l)
      else lowerL (trimL l) ++ ethL := rfl

theorem trimL_lower_trim (l : List Char) :
    trimL (lowerL (trimL l)) = lowerL (trimL l) := by
  rw [trimL_lowerL, trimL_idem]

theorem trimL_normalizeL (l : List Char) :
    trimL (normalizeL l) = normalizeL l := by
  rw [normalizeL_def]
  by_cases hb : endsWithL (lowerL (trimL l)) ethL = true
  · rw [if_pos hb]; exact trimL_lower_trim l
  · rw [if_neg hb]; exact trimL_append_eth _ (trimL_lower_trim l)

theorem lowerL_normalizeL (l : List Char) :
    lowerL (normalizeL l) = normalizeL l := by
  rw [normalizeL_def]
  by_cases hb : endsWithL (lowerL (trimL l)) ethL = true
  · rw [if_pos hb]; exact lowerL_idem _
  · rw [if_neg hb, lowerL_append, lowerL_idem, lowerL_ethL]

theorem endsWithL_normalizeL (l : List Char) :
    endsWithL (normalizeL l) ethL = true := by
  rw [normalizeL_def]
  by_cases hb : endsWithL (lowerL (trimL l)) ethL = true
  · rw [if_pos hb]; exact hb
  · rw [if_neg hb]; exact endsWithL_append_eth _

theorem normalizeL_idem (l : List Char) :
    normalizeL (normalizeL l) = normalizeL l := by
  rw [normalizeL_def (normalizeL l), trimL_normalizeL, lowerL_normalizeL,
    if_pos (endsWithL_normalizeL l)]

/-! # String-level corollaries -/

theorem data_normalize (x : String) : (normalize x).data = normalizeL x.data := rfl

theorem eth_data : ".eth".data = ethL := rfl

theorem normalize_str_idem (x : String) : normalize (normalize x) = normalize x :=
  congrArg String.mk (normalizeL_idem x.data)

theorem lowerStr_normalize (x : String) : lowerStr (normalize x) = normalize x :=
  congrArg String.mk (lowerL_normalizeL x.data)

theorem trimStr_normalize (x : String) : trimStr (normalize x) = normalize x :=
  congrArg String.mk (trimL_normalizeL x.data)

theorem lowerStr_idem (s : String) : lowerStr (lowerStr s) = lowerStr s :=
  congrArg String.mk (lowerL_idem s.data)

theorem normalize_ne_empty (x : String) : normalize x ≠ "" := by
  intro h
  have he := endsWithL_normalizeL x.data
  unfold endsWithL at he
  have hlen := isPrefixL_length ethL.reverse (normalizeL x.data).reverse he
  have hd : (normalize x).data = normalizeL x.data := rfl
  rw [h] at hd
  rw [← hd] at hlen
  simp [ethL] at hlen

/-! # Claim theorems -/

/-- C5: normalization (trim, lowercase, append the fixed `".eth"` suffix when
not already present) is idempotent, and for every input it yields a
lower-cased string ending in `".eth"`. -/
theorem claim_C5_normalize_idempotent (x : String) :
    normalize (normalize x) = normalize x ∧
    lowerStr (normalize x) = normalize x ∧
    endsWithStr (normalize x) ".eth" = true :=
  ⟨normalize_str_idem x, lowerStr_normalize x, by
    show endsWithL (normalize x).data ".eth".data = true
    rw [eth_data, data_normalize]
    exact endsWithL_normalizeL x.data⟩

/-! # History invariants (C6) -/

theorem saveToHistory_def (name : String) (prev : List String) :
    saveToHistory name prev =
      if lowerStr (trimStr name) = "" then prev
      else
        (lowerStr (trimStr name) ::
          prev.filter
            (fun item => lowerStr item ≠ lowerStr (trimStr name))).take
          MAX_SEARCH_HISTORY := rfl

/-- The collection invariant of the spec: bounded length, no two entries
equal up to case. -/
def HistInv (h : List String) : Prop :=
  h.length ≤ MAX_SEARCH_HISTORY ∧
  h.Pairwise (fun a b => lowerStr a ≠ lowerStr b)

theorem saveToHistory_preserves (name : String) (prev : List String)
    (hprev : HistInv prev) : HistInv (saveToHistory name prev) := by
  rw [saveToHistory_def]
  by_cases h0 : lowerStr (trimStr name) = ""
  · rw [if_pos h0]; exact hprev
  · rw [if_neg h0]
    constructor
    · rw [List.length_take]
      exact Nat.min_le_left _ _
    · apply List.Pairwise.sublist (List.take_sublist _ _)
      rw [List.pairwise_cons]
      constructor
      · intro b hb
        have hbf := List.of_mem_filter hb
        simp only [decide_eq_true_eq] at hbf
        rw [lowerStr_idem]
        exact fun hc => hbf hc.symm
      · exact hprev.2.sublist (List.filter_sublist _)

theorem historyOfCalls_inv (names : List String) : HistInv (historyOfCalls names) := by
  unfold historyOfCalls
  have key : ∀ (ns : List String) (acc : List String), HistInv acc →
      HistInv (ns.foldl (fun h n => saveToHistory n h) acc) := by
    intro ns
    induction ns with
    | nil => intro acc hacc; exact hacc
    | cons n ns ih =>
      intro acc hacc
      exact ih _ (saveToHistory_preserves n acc hacc)
  exact key names [] ⟨by simp [MAX_SEARCH_HISTORY], List.Pairwise.nil⟩

theorem saveToHistory_front (name : String) (prev : List String)
    (h0 : lowerStr (trimStr name) ≠ "") :
    (saveToHistory name prev).head? = some (lowerStr (trimStr name)) ∧
    ∀ x ∈ (saveToHistory name prev).tail, lowerStr x ≠ lowerStr (trimStr name) := by
  rw [saveToHistory_def, if_neg h0,
    show MAX_SEARCH_HISTORY = 9 + 1 from rfl, List.take_succ_cons]
  constructor
  · rw [List.head?_cons]
  · intro x hx
    rw [List.tail_cons] at hx
    have hxf := List.of_mem_filter (List.mem_of_mem_take hx)
    simpa using hxf

/-- C6: for any sequence of `saveToHistory` calls starting from the empty
history, the history never exceeds 10 entries and never contains two
entries equal ignoring case; and a recorded term (whose normalization is
non-blank) is placed at the front, with any previous case-insensitive
occurrence of it removed from the rest of the list. -/
theorem claim_C6_history_invariants (names : List String) (name : String)
    (prev : List String) (h0 : lowerStr (trimStr name) ≠ "") :
    (historyOfCalls names).length ≤ MAX_SEARCH_HISTORY ∧
    (historyOfCalls names).Pairwise (fun a b => lowerStr a ≠ lowerStr b) ∧
    (saveToHistory name prev).head? = some (lowerStr (trimStr name)) ∧
    ∀ x ∈ (saveToHistory name prev).tail, lowerStr x ≠ lowerStr (trimStr name) :=
  ⟨(historyOfCalls_inv names).1, (historyOfCalls_inv names).2,
    (saveToHistory_front name prev h0).1, (saveToHistory_front name prev h0).2⟩

/-- Witness for C6 at a concrete sequence of calls. -/
theorem claim_C6_history_invariants_witness :
    lowerStr (trimStr " ENS.eth ") ≠ "" ∧
    ((historyOfCalls ["a.eth", "B.eth", "a.ETH"]).length ≤ MAX_SEARCH_HISTORY ∧
     (historyOfCalls ["a.eth", "B.eth", "a.ETH"]).Pairwise
       (fun a b => lowerStr a ≠ lowerStr b) ∧
     (saveToHistory " ENS.eth " ["x.eth", "ens.eth"]).head? =
       some (lowerStr (trimStr " ENS.eth ")) ∧
     ∀ x ∈ (saveToHistory " ENS.eth " ["x.eth", "ens.eth"]).tail,
       lowerStr x ≠ lowerStr (trimStr " ENS.eth ")) :=
  ⟨by decide,
    claim_C6_history_invariants ["a.eth", "B.eth", "a.ETH"] " ENS.eth "
      ["x.eth", "ens.eth"] (by decide)⟩

/-! # Overlapping searches (C1, C8) -/

/-- C1 counterexample: searches for `"a"` then `"b"` overlap; `"b"`'s
response arrives first and `"a"`'s stale response arrives last. The final
state shows `"a"`'s result, not `"b"`'s — the stale completion is applied,
not discarded, refuting the claim that the final state reflects `"b"` and
never `"a"`. -/
theorem claim_C1_counterexample :
    (runSystem [SearchEvent.start "a", SearchEvent.start "b",
      SearchEvent.complete 1
        (FetchOutcome.response true 200 (Except.ok (JsValue.jstr "owners-of-b"))),
      SearchEvent.complete 0
        (FetchOutcome.response true 200 (Except.ok (JsValue.jstr "owners-of-a")))]
      ).ui.searchResults = some (JsValue.jstr "owners-of-a") ∧
    JsValue.jstr "owners-of-a" ≠ JsValue.jstr "owners-of-b" := by
  refine ⟨rfl, fun h => ?_⟩
  injection h with h'
  exact absurd h' (by decide)

/-- C1 amended: the code keeps no invocation token, so completions are
applied in arrival order and the final state reflects whichever response
arrives last — here the stale first search — regardless of which search was
initiated last. -/
theorem claim_C1_stale_completion_applied (dataA dataB : JsValue) :
    (runSystem [SearchEvent.start "a", SearchEvent.start "b",
      SearchEvent.complete 1 (FetchOutcome.response true 200 (Except.ok dataB)),
      SearchEvent.complete 0 (FetchOutcome.response true 200 (Except.ok dataA))]
      ).ui.searchResults = some dataA := rfl

/-- C8 counterexample: with overlapping searches, a successful completion
for the latest search followed by a stale error completion leaves the state
with an error and a result present at the same time, refuting the claimed
exclusivity of the `SearchState` variants. -/
theorem claim_C8_counterexample :
    ((runSystem [SearchEvent.start "a", SearchEvent.start "b",
      SearchEvent.complete 1
        (FetchOutcome.response true 200 (Except.ok (JsValue.jstr "owners"))),
      SearchEvent.complete 0
        (FetchOutcome.response false 500 (Except.ok (JsValue.jobj [])))]
      ).ui.error).isSome = true ∧
    ((runSystem [SearchEvent.start "a", SearchEvent.start "b",
      SearchEvent.complete 1
        (FetchOutcome.response true 200 (Except.ok (JsValue.jstr "owners"))),
      SearchEvent.complete 0
        (FetchOutcome.response false 500 (Except.ok (JsValue.jobj [])))]
      ).ui.searchResults).isSome = true := ⟨rfl, rfl⟩

theorem completeSearch_not_ok_ok (sn : String) (status : Nat) (d : JsValue)
    (st1 : UIState) :
    completeSearch sn (FetchOutcome.response false status (Except.ok d)) st1 =
      if status = 429 then
        { st1 with error := some (jsOrDefault (errorField d) RATE_LIMIT_MESSAGE),
                   isSearching := false }
      else
        { st1 with error := some (jsOrDefault (errorField d) DEFAULT_ERROR_MESSAGE),
                   isSearching := false } := rfl

/-- Every completion leaves at least one of the error and result fields
untouched: a success never writes the error, the error paths never write
the result. -/
theorem completeSearch_keeps_one (sn : String) (outcome : FetchOutcome)
    (st1 : UIState) :
    (completeSearch sn outcome st1).error = st1.error ∨
    (completeSearch sn outcome st1).searchResults = st1.searchResults := by
  cases outcome with
  | networkFailure m => exact Or.inr rfl
  | response ok status body =>
    cases ok with
    | true =>
      cases body with
      | error m => exact Or.inr rfl
      | ok data => exact Or.inl rfl
    | false =>
      cases body with
      | error m => exact Or.inr rfl
      | ok d =>
        refine Or.inr ?_
        rw [completeSearch_not_ok_ok]
        split <;> rfl

theorem completeSearch_exclusive (sn : String) (outcome : FetchOutcome)
    (st1 : UIState) (he1 : st1.error = none) (hr1 : st1.searchResults = none) :
    ¬((completeSearch sn outcome st1).error.isSome ∧
      (completeSearch sn outcome st1).searchResults.isSome) := by
  rintro ⟨he, hr⟩
  rcases completeSearch_keeps_one sn outcome st1 with h | h
  · rw [h, he1] at he
    simp at he
  · rw [h, hr1] at hr
    simp at hr

/-- C8 amended: for a search that runs to completion with no overlapping
search in between, the exclusivity holds: entering the loading state clears
both the previous result and the previous error, and the completion sets at
most one of error and result. -/
theorem claim_C8_single_search_exclusive (name : String) (outcome : FetchOutcome)
    (st : UIState) :
    (beginSearch name st).error = none ∧
    (beginSearch name st).searchResults = none ∧
    ¬((completeSearch (normalize name) outcome (beginSearch name st)).error.isSome ∧
      (completeSearch (normalize name) outcome (beginSearch name st)).searchResults.isSome) :=
  ⟨rfl, rfl, completeSearch_exclusive (normalize name) outcome (beginSearch name st) rfl rfl⟩

/-! # Error messages (C2, C3) -/

/-- C2 counterexample: on HTTP 429 with body `{"error":"slow down"}` the
state carries the raw server-supplied string `"slow down"`, not the
rate-limit-specific message, refuting the claim. -/
theorem claim_C2_counterexample :
    (completeSearch "x.eth"
      (FetchOutcome.response false 429
        (Except.ok (JsValue.jobj [("error", JsValue.jstr "slow down")])))
      (beginSearch "x" initialUIState)).error = some "slow down" ∧
    "slow down" ≠ RATE_LIMIT_MESSAGE := ⟨rfl, by decide⟩

/-- C2 amended: on HTTP 429 a non-empty server-supplied `error` string takes
precedence and becomes the message; the rate-limit-specific message is used
only when the body supplies no such string. -/
theorem claim_C2_rate_limit_message (st : UIState) (sn m : String) (hm : m ≠ "") :
    (completeSearch sn
      (FetchOutcome.response false 429
        (Except.ok (JsValue.jobj [("error", JsValue.jstr m)]))) st).error = some m ∧
    (completeSearch sn
      (FetchOutcome.response false 429
        (Except.ok (JsValue.jobj []))) st).error = some RATE_LIMIT_MESSAGE := by
  constructor
  · simp [completeSearch, errorField, jsOrDefault, List.lookup, hm]
  · simp [completeSearch, errorField, jsOrDefault, List.lookup]

/-- Witness for C2 at the spec's concrete scenario. -/
theorem claim_C2_rate_limit_message_witness :
    "slow down" ≠ "" ∧
    ((completeSearch "x.eth"
        (FetchOutcome.response false 429
          (Except.ok (JsValue.jobj [("error", JsValue.jstr "slow down")])))
        initialUIState).error = some "slow down" ∧
     (completeSearch "x.eth"
        (FetchOutcome.response false 429
          (Except.ok (JsValue.jobj []))) initialUIState).error =
       some RATE_LIMIT_MESSAGE) :=
  ⟨by decide, claim_C2_rate_limit_message initialUIState "x.eth" "slow down" (by decide)⟩

/-- C3 counterexample: on HTTP 500 with an unparseable body, `response.json()`
throws and the catch block shows the exception's message (`error.message`),
not the default fallback message, refuting the claim. -/
theorem claim_C3_counterexample :
    (completeSearch "x.eth"
      (FetchOutcome.response false 500
        (Except.error "Unexpected end of JSON input"))
      (beginSearch "x" initialUIState)).error =
      some "Unexpected end of JSON input" ∧
    "Unexpected end of JSON input" ≠ DEFAULT_ERROR_MESSAGE := ⟨rfl, by decide⟩

/-- C3 amended: on a non-success status whose body cannot be parsed, the
state is Error carrying the parse exception's message; the default fallback
message appears only when that exception message is empty. -/
theorem claim_C3_unparseable_body_message (st : UIState) (sn : String)
    (status : Nat) (m : String) :
    (completeSearch sn (FetchOutcome.response false status (Except.error m)) st).error
      = some (if m = "" then DEFAULT_ERROR_MESSAGE else m) := rfl

/-! # Side-effect ordering (C7) -/

/-- C7: within a single `performSearch` invocation the URL push happens
strictly before the outbound request is issued, and the history is written
exactly when the response is a success — never on an error response or a
transport failure. -/
theorem claim_C7_effect_ordering (name : String) (outcome : FetchOutcome) :
    (performSearchTrace name outcome).findIdx isPushURL <
      (performSearchTrace name outcome).findIdx isIssueRequest ∧
    (performSearchTrace name outcome).any isSaveHistory = isSuccessOutcome outcome := by
  constructor
  · simp [performSearchTrace, List.findIdx_cons, isPushURL, isIssueRequest]
  · cases outcome with
    | response ok status body =>
      cases ok with
      | true =>
        cases body with
        | error m =>
          by_cases hm : m = "" <;>
            simp [performSearchTrace, isSaveHistory, isSuccessOutcome, hm]
        | ok data =>
          simp [performSearchTrace, isSaveHistory, isSuccessOutcome]
      | false =>
        cases body with
        | error m =>
          by_cases hm : m = "" <;>
            simp [performSearchTrace, isSaveHistory, isSuccessOutcome, hm]
        | ok d =>
          by_cases h429 : status = 429 <;>
            simp [performSearchTrace, isSaveHistory, isSuccessOutcome, h429]
    | networkFailure m =>
      by_cases hm : m = "" <;>
        simp [performSearchTrace, isSaveHistory, isSuccessOutcome, hm]

/-! # History restoration (C9, C10) -/

/-- C9: when the persisted history string is not parseable as JSON, the
restore effect catches the exception (it is a total function of the parse
outcome — nothing propagates) and the history stays the initial empty
list. -/
theorem claim_C9_corrupt_storage (s : String)
    (jsonParse : String → Except String JsValue) (e : String)
    (h : jsonParse s = Except.error e) :
    restoredHistoryState (some s) jsonParse = JsValue.jarr [] := by
  have hd : restoredHistoryState (some s) jsonParse =
      (match jsonParse s with
       | Except.error _ => JsValue.jarr []
       | Except.ok v => v) := rfl
  rw [hd, h]

/-- Witness for C9 with a concrete unparseable stored string. -/
theorem claim_C9_corrupt_storage_witness :
    (fun _ : String => (Except.error "Unexpected token o in JSON" :
        Except String JsValue)) "not json" = Except.error "Unexpected token o in JSON" ∧
    restoredHistoryState (some "not json")
      (fun _ => Except.error "Unexpected token o in JSON") = JsValue.jarr [] :=
  ⟨rfl, claim_C9_corrupt_storage "not json" _ "Unexpected token o in JSON" rfl⟩

/-- C10: any stored string whose parse succeeds is installed verbatim as
the history, with no validation of shape or contents. -/
theorem claim_C10_no_validation (s : String)
    (jsonParse : String → Except String JsValue) (v : JsValue)
    (h : jsonParse s = Except.ok v) :
    restoredHistoryState (some s) jsonParse = v := by
  have hd : restoredHistoryState (some s) jsonParse =
      (match jsonParse s with
       | Except.error _ => JsValue.jarr []
       | Except.ok v => v) := rfl
  rw [hd, h]

/-- Witness for C10: a parsed value that is an 11-element array with
case-insensitive duplicates and a non-string element is installed
unchanged. -/
theorem claim_C10_no_validation_witness :
    (fun _ : String => (Except.ok badHistoryValue : Except String JsValue)) "stored" =
      Except.ok badHistoryValue ∧
    restoredHistoryState (some "stored") (fun _ => Except.ok badHistoryValue) =
      badHistoryValue :=
  ⟨rfl, claim_C10_no_validation "stored" _ badHistoryValue rfl⟩

/-! # Route initialization and navigation (C4) -/

theorem string_data_inj {s t : String} (h : s.data = t.data) : s = t := by
  cases s
  cases t
  exact congrArg String.mk h

theorem slash_append_ne_root (seg : String) (h : seg ≠ "") : ("/" ++ seg) ≠ "/" := by
  intro he
  apply h
  have hd := congrArg String.data he
  rw [String.data_append] at hd
  have hnil : seg.data = ("" : String).data :=
    List.append_cancel_left (hd.trans (List.append_nil _).symm)
  exact string_data_inj hnil

theorem componentInit_root : componentInit "/" = none := rfl

theorem sliceFrom1_slash (seg : String) : sliceFrom1 ("/" ++ seg) = seg := rfl

theorem componentInit_domain (seg : String) (hne : seg ≠ "") :
    componentInit ("/" ++ seg) = some (decodePercent seg) := by
  unfold componentInit
  rw [if_neg (slash_append_ne_root seg hne), sliceFrom1_slash]
  rfl

theorem updateURLPath_def (name : String) :
    updateURLPath name =
      if lowerStr (trimStr name) ≠ "" then "/" ++ lowerStr (trimStr name)
      else "/" := rfl

theorem updateURLPath_norm (x : String) :
    updateURLPath (normalize x) = "/" ++ normalize x := by
  rw [updateURLPath_def, trimStr_normalize, lowerStr_normalize,
    if_pos (normalize_ne_empty x)]

theorem mountComponent_succ (fuel : Nat) (s : Session) :
    mountComponent (fuel + 1) s =
      match componentInit s.route with
      | none => s
      | some d =>
        let s' : Session := { s with searchLog := s.searchLog ++ [d] }
        let target := updateURLPath (normalize d)
        if target = s'.route then s'
        else mountComponent fuel { route := target, searchLog := s'.searchLog } := rfl

theorem loadPage_root : loadPage 2 "/" = { route := "/", searchLog := [] } := by
  unfold loadPage
  rw [show (2 : Nat) = 1 + 1 from rfl, mountComponent_succ]
  dsimp only
  rw [componentInit_root]

theorem loadPage_normalized (seg : String) (hseg : normalize seg = seg)
    (hdec : decodePercent seg = seg) :
    (loadPage 2 ("/" ++ seg)).searchLog = [seg] := by
  have hne : seg ≠ "" := by
    rw [← hseg]
    exact normalize_ne_empty seg
  unfold loadPage
  rw [show (2 : Nat) = 1 + 1 from rfl, mountComponent_succ]
  dsimp only
  rw [componentInit_domain seg hne, hdec]
  dsimp only
  rw [updateURLPath_norm, hseg, if_pos rfl]
  simp

theorem submit_from_root (input : String) (hin : ¬trimStr input = "")
    (hdec2 : decodePercent (normalize input) = normalize input) :
    (submitSearch 2 (loadPage 2 "/") input).searchLog = [input, normalize input] := by
  unfold submitSearch
  rw [loadPage_root, if_neg hin]
  dsimp only
  rw [updateURLPath_norm,
    if_neg (slash_append_ne_root (normalize input) (normalize_ne_empty input)),
    show (2 : Nat) = 1 + 1 from rfl, mountComponent_succ]
  dsimp only
  rw [componentInit_domain (normalize input) (normalize_ne_empty input), hdec2]
  dsimp only
  rw [normalize_str_idem, updateURLPath_norm, if_pos rfl]
  simp

/-- C4 counterexample: loading the root route runs no search, but one form
submission of `"ens"` from the root produces two `performSearch`
invocations: the second is triggered by the route initialization of the
page mounted by `performSearch`'s own `router.push`, refuting the claim
that the programmatic URL update never re-triggers route initialization. -/
theorem claim_C4_counterexample :
    (loadPage 2 "/").searchLog = [] ∧
    (submitSearch 2 (loadPage 2 "/") "ens").searchLog = ["ens", "ens.eth"] := by
  constructor
  · rfl
  · rfl

/-- C4 amended: direct load of an already-normalized, percent-free domain
route invokes search exactly once (the search's own URL push targets the
identical path, so initialization does not re-run and no navigation loop
arises); but a search whose URL push changes the path does re-trigger route
initialization exactly once, yielding one extra search for the normalized
term before the navigation reaches a fixed point. -/
theorem claim_C4_route_initialization (seg input : String)
    (hseg : normalize seg = seg) (hdec : decodePercent seg = seg)
    (hin : ¬trimStr input = "")
    (hdec2 : decodePercent (normalize input) = normalize input) :
    (loadPage 2 ("/" ++ seg)).searchLog = [seg] ∧
    (submitSearch 2 (loadPage 2 "/") input).searchLog = [input, normalize input] :=
  ⟨loadPage_normalized seg hseg hdec, submit_from_root input hin hdec2⟩

/-- Witness for C4 at the concrete deep link `/ens.eth` and the concrete
form input `"ens"`. -/
theorem claim_C4_route_initialization_witness :
    (normalize "ens.eth" = "ens.eth" ∧ decodePercent "ens.eth" = "ens.eth" ∧
     ¬trimStr "ens" = "" ∧ decodePercent (normalize "ens") = normalize "ens") ∧
    ((loadPage 2 ("/" ++ "ens.eth")).searchLog = ["ens.eth"] ∧
     (submitSearch 2 (loadPage 2 "/") "ens").searchLog = ["ens", normalize "ens"]) :=
  ⟨⟨by decide, by decide, by decide, by decide⟩,
    claim_C4_route_initialization "ens.eth" "ens" (by decide) (by decide)
      (by decide) (by decide)⟩

end Pastens
